import Mathlib

/-!
# Verification of the Potato Doc upload/analysis component

A shallow embedding of `src/frontend/src/home.js` (the `ImageUpload` React
component) as an explicit event-step machine, together with proofs about the
claims of the specification.

Modelling notes, keyed to the source:

* The React `useState` fields `selectedFile`, `preview`, `results`,
  `isAnalyzing`, `error`, `dragActive` become the fields of `CompState`.
  A file is modelled by its MIME type string plus an identity tag; an object
  URL (from `URL.createObjectURL`) is modelled by a fresh natural number drawn
  from a counter `nextUrl` — `createObjectURL` returns a distinct URL on every
  call, which the counter captures.
* JavaScript `null`/`undefined` become `Option`.  In particular
  `response.data.prediction` is an `Option String` (`none` models a parsed
  body that lacks a `prediction` field, in which case the property access
  yields `undefined` without throwing), and `results.condition` is the
  `Option String` stored by `setResults`.
* The `useEffect` with dependency list `[preview, selectedFile]` is modelled
  by a flag `effectPending`: a handler that changes a dependency sets the
  flag, and a separate `Event.flush` step runs the effect body.  React runs
  the effect after the commit and before the next discrete user event, so
  trace validity (`okEvent`) requires `effectPending = false` before a user
  event is processed, while a pending network response (`Event.settle`) may
  interleave freely.  `URL.createObjectURL` always returns a fresh string, so
  a selection always changes the `preview` dependency and `processSelectedFile`
  sets the flag unconditionally; `resetAnalysis` changes a dependency exactly
  when `preview` or `selectedFile` was non-null.
* `axios` with its default `validateStatus` rejects (throws) exactly when the
  response status is outside `[200, 300)`; a network failure also throws.
  The `try/catch/finally` of `analyzeImage` therefore becomes `settleComp`:
  thrown outcomes set `error` to the fixed message and clear `isAnalyzing`;
  a delivered 2xx response enters the `if (response.status === 200)` branch
  (storing `{condition: data.prediction, confidence: 98}`) or, for any other
  2xx status, stores nothing; `finally` clears `isAnalyzing` in all cases.
  The `catch` and `finally` blocks run in one synchronous continuation, so
  they form a single atomic step.
* `home.js` never calls `URL.revokeObjectURL`; the ghost field `released`
  records every revocation and consequently no event ever appends to it.
  The ghost fields `issued` (every inference request ever started, with the
  preview handle current when it was issued) and `selections` (the preview
  handle of every accepted selection) instrument the machine for the
  exactly-once claim; they do not influence component behaviour.
-/

namespace PotatoDoc

/-- A user-supplied file: its declared MIME type and an identity tag
(contents are irrelevant to the component's control flow). -/
structure RawFile where
  ftype : String
  fid : Nat
deriving DecidableEq, Repr

/-- The object stored by `setResults`: `{condition: response.data.prediction,
confidence: 98}`.  `condition` is `Option String` because the code never
checks that the `prediction` field exists. -/
structure AnalysisResult where
  condition : Option String
  confidence : Nat
deriving DecidableEq, Repr

/-- The six `useState` fields of `ImageUpload`. -/
structure CompState where
  selectedFile : Option RawFile
  preview : Option Nat
  results : Option AnalysisResult
  isAnalyzing : Bool
  error : Option String
  dragActive : Bool
deriving DecidableEq, Repr

/-- An in-flight (or logged) inference request: its id, the file sent in the
form data, and the preview handle that was current when it was issued. -/
structure Request where
  rid : Nat
  rfile : Option RawFile
  rpreview : Nat
deriving DecidableEq, Repr

/-- The whole world: component state plus the effect flag, fresh-name
counters, the in-flight request set, and the ghost logs. -/
structure World where
  comp : CompState
  effectPending : Bool
  nextUrl : Nat
  nextReq : Nat
  pending : List Request
  issued : List Request
  selections : List Nat
  released : List Nat
deriving DecidableEq, Repr

/-- Initial mount: every `useState` starts at `null`/`false`. -/
def init : World :=
  { comp := { selectedFile := none, preview := none, results := none,
              isAnalyzing := false, error := none, dragActive := false },
    effectPending := false, nextUrl := 0, nextReq := 0,
    pending := [], issued := [], selections := [], released := [] }

/-- JavaScript `s.startsWith(p)`: `p` is a prefix of `s` (checked on the
character sequences). -/
def strStartsWith (s p : String) : Bool := p.data.isPrefixOf s.data

/-- `file.type.startsWith('image/')`. -/
def isImage (f : RawFile) : Bool := strStartsWith f.ftype "image/"

/-- `processSelectedFile`: `setSelectedFile(file); setError(null);
setResults(null); setPreview(URL.createObjectURL(file))`.  The fresh object
URL is `nextUrl`; since `createObjectURL` returns a brand-new string, the
effect dependency `preview` always changes, so `effectPending` is set. -/
def processSelectedFile (f : RawFile) (w : World) : World :=
  { w with
    comp := { w.comp with
              selectedFile := some f, error := none,
              results := none, preview := some w.nextUrl },
    nextUrl := w.nextUrl + 1,
    selections := w.selections ++ [w.nextUrl],
    effectPending := true }

/-- `handleFileChange`: takes `e.target.files`, looks at the first file, and
processes it only when its MIME type starts with `image/`. -/
def handleFileChange (files : List RawFile) (w : World) : World :=
  match files.head? with
  | some f => if isImage f then processSelectedFile f w else w
  | none => w

/-- `handleDrop`: always `setDragActive(false)`, then processes the first
dropped file when it exists and its MIME type starts with `image/`. -/
def handleDrop (files : List RawFile) (w : World) : World :=
  let w1 := { w with comp := { w.comp with dragActive := false } }
  match files.head? with
  | some f => if isImage f then processSelectedFile f w1 else w1
  | none => w1

/-- The three drag event kinds wired to `handleDrag`
(`onDragEnter`, `onDragOver`, `onDragLeave`). -/
inductive DragKind
  | dragenter
  | dragover
  | dragleave
deriving DecidableEq, Repr

/-- `handleDrag`: `dragenter`/`dragover` set the active indicator,
`dragleave` clears it. -/
def handleDrag (t : DragKind) (w : World) : World :=
  match t with
  | .dragenter => { w with comp := { w.comp with dragActive := true } }
  | .dragover => { w with comp := { w.comp with dragActive := true } }
  | .dragleave => { w with comp := { w.comp with dragActive := false } }

/-- `resetAnalysis`: nulls `selectedFile`, `preview`, `results`, `error`.
It does not touch `isAnalyzing` or `dragActive`, and it does not revoke the
object URL.  The effect dependencies `[preview, selectedFile]` change exactly
when one of them was non-null. -/
def resetAnalysis (w : World) : World :=
  { w with
    comp := { w.comp with
              selectedFile := none, preview := none,
              results := none, error := none },
    effectPending :=
      w.effectPending || w.comp.preview.isSome || w.comp.selectedFile.isSome }

/-- The effect body: `if (!preview) return; analyzeImage()` — the synchronous
prefix of `analyzeImage` runs `setIsAnalyzing(true); setError(null)` and
starts the axios request (recorded in `pending` and logged in `issued`). -/
def flushEffect (w : World) : World :=
  if w.effectPending then
    match w.comp.preview with
    | none => { w with effectPending := false }
    | some u =>
      { w with
        effectPending := false,
        comp := { w.comp with isAnalyzing := true, error := none },
        pending := w.pending ++
          [{ rid := w.nextReq, rfile := w.comp.selectedFile, rpreview := u }],
        issued := w.issued ++
          [{ rid := w.nextReq, rfile := w.comp.selectedFile, rpreview := u }],
        nextReq := w.nextReq + 1 }
  else w

/-- How an axios call can come back: a network failure (no response), or a
delivered response with a status code and the `prediction` field of its
parsed body (`none` when the body lacks that field). -/
inductive HttpOutcome
  | netError
  | response (status : Nat) (prediction : Option String)
deriving DecidableEq, Repr

/-- The exact user-facing message set in the `catch` block of `analyzeImage`. -/
def failMsg : String :=
  "We couldn't analyze this image. Please try with another photo of a potato leaf."

/-- axios's default `validateStatus`: resolve iff `200 <= status < 300`. -/
def ok2xx (st : Nat) : Bool := decide (200 ≤ st) && decide (st < 300)

/-- The continuation of `analyzeImage` once the request settles: a rejected
promise (network failure or non-2xx status) runs `catch` + `finally`
(`setError(failMsg); setIsAnalyzing(false)`); a resolved 200 response runs
`setResults({condition: data.prediction, confidence: 98})` then `finally`;
any other 2xx status only runs `finally`. -/
def settleComp (o : HttpOutcome) (s : CompState) : CompState :=
  match o with
  | .netError => { s with error := some failMsg, isAnalyzing := false }
  | .response status pred =>
    if ok2xx status then
      if status = 200 then
        { s with results := some { condition := pred, confidence := 98 },
                 isAnalyzing := false }
      else
        { s with isAnalyzing := false }
    else
      { s with error := some failMsg, isAnalyzing := false }

/-- Resolve pending request `rid` with outcome `o` (a no-op when no such
request is in flight). -/
def doSettle (rid : Nat) (o : HttpOutcome) (w : World) : World :=
  if w.pending.any (fun r => r.rid == rid) then
    { w with pending := w.pending.filter (fun r => r.rid != rid),
             comp := settleComp o w.comp }
  else w

/-- The events the component reacts to. -/
inductive Event
  | pickerSelect (files : List RawFile)
  | dropFiles (files : List RawFile)
  | drag (t : DragKind)
  | resetClick
  | flush
  | settle (rid : Nat) (o : HttpOutcome)
deriving DecidableEq, Repr

/-- One step of the machine. -/
def step (e : Event) (w : World) : World :=
  match e with
  | .pickerSelect fs => handleFileChange fs w
  | .dropFiles fs => handleDrop fs w
  | .drag t => handleDrag t w
  | .resetClick => resetAnalysis w
  | .flush => flushEffect w
  | .settle rid o => doSettle rid o w

/-- When an event can fire: the effect flush needs a pending effect, a
settlement needs a matching in-flight request, and a discrete user event is
only dispatched after React has flushed the pending effect. -/
def okEvent (w : World) (e : Event) : Bool :=
  match e with
  | .flush => w.effectPending
  | .settle rid _ => w.pending.any (fun r => r.rid == rid)
  | _ => !w.effectPending

/-- Run a list of events. -/
def run (w : World) : List Event → World
  | [] => w
  | e :: es => run (step e w) es

/-- Check a list of events respects `okEvent` along the way. -/
def validRun (w : World) : List Event → Bool
  | [] => true
  | e :: es => okEvent w e && validRun (step e w) es

/-- Reachability of a world along valid event sequences from the mount. -/
inductive Reach : World → Prop
  | init : Reach init
  | step (w : World) (e : Event) : Reach w → okEvent w e = true → Reach (step e w)

/-- Stronger validity used for the amended mutual-exclusion claim: no new
file is selected while a request is still in flight. -/
def seqOk (w : World) (e : Event) : Bool :=
  okEvent w e &&
    match e with
    | .pickerSelect _ => w.pending.isEmpty
    | .dropFiles _ => w.pending.isEmpty
    | _ => true

/-- Reachability along traces that never select during an in-flight request. -/
inductive SeqReach : World → Prop
  | init : SeqReach init
  | step (w : World) (e : Event) : SeqReach w → seqOk w e = true →
      SeqReach (step e w)

/-- Check a list of events respects `seqOk` along the way. -/
def seqValidRun (w : World) : List Event → Bool
  | [] => true
  | e :: es => seqOk w e && seqValidRun (step e w) es

/-- `getConditionClass`: empty string with no results, otherwise `healthy`
iff `results.condition === 'Healthy'` and `disease` otherwise. -/
def getConditionClass (s : CompState) : String :=
  match s.results with
  | none => ""
  | some r => if r.condition = some "Healthy" then "healthy" else "disease"

/-- How many of the three exclusive UI indicators are active:
the in-flight flag, a present result, a present error. -/
def activeCount (s : CompState) : Nat :=
  (if s.isAnalyzing then 1 else 0) + (if s.results.isSome then 1 else 0) +
    (if s.error.isSome then 1 else 0)

/-- Number of inference calls ever issued for preview handle `u`. -/
def countIssued (u : Nat) (w : World) : Nat :=
  w.issued.countP (fun r => r.rpreview == u)

/-- Outcomes on which the axios promise rejects, i.e. the `catch` block of
`analyzeImage` runs: a network failure or a status outside `[200, 300)`. -/
def throwsOutcome : HttpOutcome → Bool
  | .netError => true
  | .response st _ => !(ok2xx st)

/-- A selection payload the handlers ignore: no file at all, or a first file
whose MIME type does not start with `image/`. -/
def badSelection (files : List RawFile) : Bool :=
  match files.head? with
  | none => true
  | some f => !(isImage f)

/-- The three-event scenario of one accepted selection whose single request
settles with outcome `o`. -/
def singleRunTrace (f : RawFile) (o : HttpOutcome) : List Event :=
  [.pickerSelect [f], .flush, .settle 0 o]

/-- A sample image file. -/
def imgA : RawFile := { ftype := "image/png", fid := 0 }

/-- A second, distinct sample image file. -/
def imgB : RawFile := { ftype := "image/jpeg", fid := 1 }

/-- A sample non-image file. -/
def textFile : RawFile := { ftype := "text/plain", fid := 2 }

/-- The stale-response race: select `imgA`, select `imgB` while `imgA`'s
request (id 0) is in flight, then `imgB`'s request (id 1) settles first and
`imgA`'s settles last. -/
def staleTrace : List Event :=
  [.pickerSelect [imgA], .flush, .pickerSelect [imgB], .flush,
   .settle 1 (.response 200 (some "Healthy")),
   .settle 0 (.response 200 (some "Late Blight"))]

/-- A single accepted selection, before the effect has run. -/
def idleWithFileTrace : List Event := [.pickerSelect [imgA]]

/-- The race variant in which the stale first request fails after the second
one has already succeeded. -/
def raceErrorTrace : List Event :=
  [.pickerSelect [imgA], .flush, .pickerSelect [imgB], .flush,
   .settle 1 (.response 200 (some "Healthy")), .settle 0 .netError]

/-- Select, succeed, reset. -/
def selectResetTrace : List Event :=
  [.pickerSelect [imgA], .flush, .settle 0 (.response 200 (some "Healthy")),
   .resetClick]

/-- Select, succeed, reset, then select a second file (the reset's no-op
effect flush runs in between, as React does before the next event). -/
def twoSelectionsTrace : List Event :=
  selectResetTrace ++ [.flush, .pickerSelect [imgB]]

/-- A full sequential round: select, analyze, succeed — no overlapping
requests. -/
def seqHealthyTrace : List Event :=
  [.pickerSelect [imgA], .flush, .settle 0 (.response 200 (some "Healthy"))]

/-- The invariant that makes the mutual-exclusion claim go through on traces
that never select a file while a request is in flight. -/
def SeqInv (w : World) : Prop :=
  w.pending.length ≤ 1 ∧
  w.comp.isAnalyzing = !w.pending.isEmpty ∧
  (w.comp.isAnalyzing = true → w.comp.results = none ∧ w.comp.error = none) ∧
  (w.comp.results = none ∨ w.comp.error = none) ∧
  (w.effectPending = true → w.comp.preview.isSome = true →
    w.comp.results = none ∧ w.pending = [])

/-- The instrumentation invariant behind the exactly-one-request claim. -/
def Inv5 (w : World) : Prop :=
  (∀ r ∈ w.issued, r.rpreview < w.nextUrl) ∧
  (∀ u ∈ w.selections, u < w.nextUrl) ∧
  (∀ u, w.comp.preview = some u → u < w.nextUrl) ∧
  (w.effectPending = true → ∀ u, w.comp.preview = some u →
    countIssued u w = 0) ∧
  (∀ u ∈ w.selections,
    countIssued u w = 1 ∨
    (w.effectPending = true ∧ w.comp.preview = some u ∧ countIssued u w = 0))

/-- Running a valid event list from a reachable world stays reachable. -/
theorem reach_of_validRun (tr : List Event) (w : World) (hw : Reach w)
    (hv : validRun w tr = true) : Reach (run w tr) := by
  induction tr generalizing w with
  | nil => exact hw
  | cons e es ih =>
    simp only [validRun, Bool.and_eq_true] at hv
    exact ih (step e w) (Reach.step w e hw hv.1) hv.2

/-- Running a list of events valid in the sequential sense keeps `SeqReach`. -/
theorem seqReach_of_seqValidRun (tr : List Event) (w : World) (hw : SeqReach w)
    (hv : seqValidRun w tr = true) : SeqReach (run w tr) := by
  induction tr generalizing w with
  | nil => exact hw
  | cons e es ih =>
    simp only [seqValidRun, Bool.and_eq_true] at hv
    exact ih (step e w) (SeqReach.step w e hw hv.1) hv.2

/-- C1 counterexample: an HTTP 200 response whose parsed body lacks the
`prediction` field does not produce the Failed state.  `analyzeImage` never
checks the field: `response.data.prediction` evaluates to `undefined` and is
stored via `setResults`, so the component ends with a result present and no
error — contradicting the claim that every malformed-body response yields
`Failed` with the fixed message. -/
theorem c1_counterexample :
    validRun init (singleRunTrace imgA (.response 200 none)) = true ∧
    (run init (singleRunTrace imgA (.response 200 none))).comp.error = none ∧
    (run init (singleRunTrace imgA (.response 200 none))).comp.results =
      some { condition := none, confidence := 98 } ∧
    (run init (singleRunTrace imgA (.response 200 none))).comp.isAnalyzing =
      false := by
  decide

/-- C1 amended: for every inference attempt on which the axios promise
rejects — any response status outside `[200, 300)` (e.g. 500) or a network
failure — the final state is Failed with exactly the fixed message, the
in-flight flag is cleared, and no result is produced.  (A 200 response with a
malformed body is excluded: it yields a result with an undefined condition,
per the counterexample.) -/
theorem c1_amended_theorem (f : RawFile) (o : HttpOutcome)
    (hf : isImage f = true) (ho : throwsOutcome o = true) :
    validRun init (singleRunTrace f o) = true ∧
    (run init (singleRunTrace f o)).comp.error = some failMsg ∧
    (run init (singleRunTrace f o)).comp.results = none ∧
    (run init (singleRunTrace f o)).comp.isAnalyzing = false := by
  cases o with
  | netError =>
    simp [singleRunTrace, run, validRun, step, okEvent, handleFileChange,
      processSelectedFile, flushEffect, doSettle, settleComp, init, hf]
  | response st p =>
    simp only [throwsOutcome, Bool.not_eq_true'] at ho
    simp [singleRunTrace, run, validRun, step, okEvent, handleFileChange,
      processSelectedFile, flushEffect, doSettle, settleComp, init, hf, ho]

/-- C1 witness: the amended theorem applied to a PNG upload answered with
status 500. -/
theorem c1_amended_witness :
    validRun init (singleRunTrace imgA (.response 500 none)) = true ∧
    (run init (singleRunTrace imgA (.response 500 none))).comp.error =
      some failMsg ∧
    (run init (singleRunTrace imgA (.response 500 none))).comp.results =
      none ∧
    (run init (singleRunTrace imgA (.response 500 none))).comp.isAnalyzing =
      false :=
  c1_amended_theorem imgA (.response 500 none) (by decide) (by decide)

/-- C2: the stale-response race the claim requires to be impossible does
happen.  Selecting `imgB` while `imgA`'s request is pending and letting
`imgA`'s request resolve last leaves `imgA`'s prediction ("Late Blight") in
the single shared results slot, not `imgB`'s ("Healthy"): the effect has no
generation token or cancellation, so the last settlement wins. -/
theorem c2_stale_overwrite :
    validRun init staleTrace = true ∧
    (run init staleTrace).comp.selectedFile = some imgB ∧
    (run init staleTrace).pending = [] ∧
    (run init staleTrace).comp.results =
      some { condition := some "Late Blight", confidence := 98 } ∧
    (run init staleTrace).comp.results ≠
      some { condition := some "Healthy", confidence := 98 } := by
  decide

/-- C3 counterexample: both halves of the claim fail on reachable states.
First, right after an accepted selection (before the effect runs) none of
{in-flight, result, error} is active although a file is selected, so the
flag-derived Idle state does not imply "no file selected".  Second, with
overlapping requests (select `imgB` while `imgA` is pending, `imgB` succeeds,
stale `imgA` then fails) the final state has a result and an error present
simultaneously — two of the three supposedly exclusive states at once. -/
theorem c3_counterexample :
    (validRun init idleWithFileTrace = true ∧
     (run init idleWithFileTrace).comp.selectedFile = some imgA ∧
     activeCount (run init idleWithFileTrace).comp = 0) ∧
    (validRun init raceErrorTrace = true ∧
     (run init raceErrorTrace).comp.results.isSome = true ∧
     (run init raceErrorTrace).comp.error.isSome = true ∧
     activeCount (run init raceErrorTrace).comp = 2) := by
  decide

/-- C4: the code never releases a preview handle.  After a full
select / analyze / reset round the component is back in its mount state, one
object URL has been created, and the set of revoked URLs is empty —
`resetAnalysis` only nulls the `preview` reference and `home.js` contains no
`URL.revokeObjectURL` call at all; likewise a second selection creates a
second URL while still releasing nothing (zero releases, not exactly one). -/
theorem c4_no_release :
    validRun init selectResetTrace = true ∧
    (run init selectResetTrace).comp = init.comp ∧
    (run init selectResetTrace).nextUrl = 1 ∧
    (run init selectResetTrace).released = [] ∧
    validRun init twoSelectionsTrace = true ∧
    (run init twoSelectionsTrace).nextUrl = 2 ∧
    (run init twoSelectionsTrace).released = [] := by
  decide

/-- C6: an HTTP 200 response whose body carries `prediction: p` ends in the
success state `results = {condition: p, confidence: 98}` with no error and
the in-flight flag cleared, and `getConditionClass` selects the `healthy`
branch exactly when `p` is the literal string `Healthy` and the `disease`
branch for every other value of `p`. -/
theorem c6_success_and_presenter (f : RawFile) (p : String)
    (hf : isImage f = true) :
    validRun init (singleRunTrace f (.response 200 (some p))) = true ∧
    (run init (singleRunTrace f (.response 200 (some p)))).comp.results =
      some { condition := some p, confidence := 98 } ∧
    (run init (singleRunTrace f (.response 200 (some p)))).comp.error =
      none ∧
    (run init (singleRunTrace f (.response 200 (some p)))).comp.isAnalyzing =
      false ∧
    getConditionClass
        (run init (singleRunTrace f (.response 200 (some p)))).comp =
      (if p = "Healthy" then "healthy" else "disease") := by
  simp [singleRunTrace, run, validRun, step, okEvent, handleFileChange,
    processSelectedFile, flushEffect, doSettle, settleComp, init, hf,
    ok2xx, getConditionClass]

/-- C6 witness: the theorem applied to a PNG upload answered with
`prediction: "Late Blight"` (the disease branch). -/
theorem c6_witness :
    validRun init
        (singleRunTrace imgA (.response 200 (some "Late Blight"))) = true ∧
    (run init
        (singleRunTrace imgA
          (.response 200 (some "Late Blight")))).comp.results =
      some { condition := some "Late Blight", confidence := 98 } ∧
    (run init
        (singleRunTrace imgA
          (.response 200 (some "Late Blight")))).comp.error = none ∧
    (run init
        (singleRunTrace imgA
          (.response 200 (some "Late Blight")))).comp.isAnalyzing = false ∧
    getConditionClass
        (run init
          (singleRunTrace imgA
            (.response 200 (some "Late Blight")))).comp =
      (if "Late Blight" = "Healthy" then "healthy" else "disease") :=
  c6_success_and_presenter imgA "Late Blight" (by decide)

/-- C7 counterexample: the component state is not completely unchanged by a
rejected drop.  Dropping a `text/plain` file while the drag indicator is
active (as it is during any drag) flips `dragActive` from `true` to `false`,
so the post-drop world differs from the pre-drop world. -/
theorem c7_counterexample :
    validRun init [.drag .dragenter, .dropFiles [textFile]] = true ∧
    (step (.drag .dragenter) init).comp.dragActive = true ∧
    step (.dropFiles [textFile]) (step (.drag .dragenter) init) ≠
      step (.drag .dragenter) init ∧
    (step (.dropFiles [textFile])
        (step (.drag .dragenter) init)).comp.dragActive = false := by
  decide

/-- C7 amended: a selection with no file or with a first file whose MIME type
does not start with `image/` leaves the analysis state untouched and
produces no error: a picker change event is a complete no-op, and a drop
changes nothing except setting the drag-active indicator to inactive (which
`handleDrop` does unconditionally, before the MIME check). -/
theorem c7_amended_theorem (w : World) (files : List RawFile)
    (h : badSelection files = true) :
    step (.pickerSelect files) w = w ∧
    step (.dropFiles files) w =
      { w with comp := { w.comp with dragActive := false } } := by
  cases files with
  | nil => exact ⟨rfl, rfl⟩
  | cons f fs =>
    simp only [badSelection, List.head?_cons, Bool.not_eq_true'] at h
    constructor
    · simp [step, handleFileChange, h]
    · simp [step, handleDrop, h]

/-- C7 witness: the amended theorem applied to a dropped/picked `text/plain`
file at the mount state. -/
theorem c7_amended_witness :
    step (.pickerSelect [textFile]) init = init ∧
    step (.dropFiles [textFile]) init =
      { init with comp := { init.comp with dragActive := false } } :=
  c7_amended_theorem init [textFile] (by decide)

/-- C8: from any state, an accepted selection (picker or drop) records the
new file, clears any previous result and error, creates a fresh preview
handle, and — once its effect runs — sets the in-flight flag with result and
error still clear: the component is Analyzing for the new file. -/
theorem c8_new_selection_analyzing (w : World) (f : RawFile)
    (rest : List RawFile) (hf : isImage f = true) :
    ((step (.pickerSelect (f :: rest)) w).comp.selectedFile = some f ∧
     (step (.pickerSelect (f :: rest)) w).comp.results = none ∧
     (step (.pickerSelect (f :: rest)) w).comp.error = none ∧
     (step (.pickerSelect (f :: rest)) w).comp.preview = some w.nextUrl ∧
     (step .flush (step (.pickerSelect (f :: rest)) w)).comp.isAnalyzing =
       true ∧
     (step .flush (step (.pickerSelect (f :: rest)) w)).comp.results =
       none ∧
     (step .flush (step (.pickerSelect (f :: rest)) w)).comp.error = none ∧
     (step .flush (step (.pickerSelect (f :: rest)) w)).comp.selectedFile =
       some f ∧
     (step .flush (step (.pickerSelect (f :: rest)) w)).comp.preview =
       some w.nextUrl) ∧
    ((step (.dropFiles (f :: rest)) w).comp.selectedFile = some f ∧
     (step (.dropFiles (f :: rest)) w).comp.results = none ∧
     (step (.dropFiles (f :: rest)) w).comp.error = none ∧
     (step (.dropFiles (f :: rest)) w).comp.preview = some w.nextUrl ∧
     (step .flush (step (.dropFiles (f :: rest)) w)).comp.isAnalyzing =
       true ∧
     (step .flush (step (.dropFiles (f :: rest)) w)).comp.results = none ∧
     (step .flush (step (.dropFiles (f :: rest)) w)).comp.error = none ∧
     (step .flush (step (.dropFiles (f :: rest)) w)).comp.selectedFile =
       some f ∧
     (step .flush (step (.dropFiles (f :: rest)) w)).comp.preview =
       some w.nextUrl) := by
  simp [step, handleFileChange, handleDrop, processSelectedFile,
    flushEffect, hf]

/-- C8 witness: the theorem applied at a Failed state (error present from a
previous attempt) with a fresh JPEG selection. -/
theorem c8_witness :
    ((step (.pickerSelect [imgB])
        (run init (singleRunTrace imgA .netError))).comp.selectedFile =
      some imgB ∧
     (step (.pickerSelect [imgB])
        (run init (singleRunTrace imgA .netError))).comp.results = none ∧
     (step (.pickerSelect [imgB])
        (run init (singleRunTrace imgA .netError))).comp.error = none ∧
     (step (.pickerSelect [imgB])
        (run init (singleRunTrace imgA .netError))).comp.preview =
      some (run init (singleRunTrace imgA .netError)).nextUrl ∧
     (step .flush (step (.pickerSelect [imgB])
        (run init (singleRunTrace imgA .netError)))).comp.isAnalyzing =
      true ∧
     (step .flush (step (.pickerSelect [imgB])
        (run init (singleRunTrace imgA .netError)))).comp.results = none ∧
     (step .flush (step (.pickerSelect [imgB])
        (run init (singleRunTrace imgA .netError)))).comp.error = none ∧
     (step .flush (step (.pickerSelect [imgB])
        (run init (singleRunTrace imgA .netError)))).comp.selectedFile =
      some imgB ∧
     (step .flush (step (.pickerSelect [imgB])
        (run init (singleRunTrace imgA .netError)))).comp.preview =
      some (run init (singleRunTrace imgA .netError)).nextUrl) ∧
    ((step (.dropFiles [imgB])
        (run init (singleRunTrace imgA .netError))).comp.selectedFile =
      some imgB ∧
     (step (.dropFiles [imgB])
        (run init (singleRunTrace imgA .netError))).comp.results = none ∧
     (step (.dropFiles [imgB])
        (run init (singleRunTrace imgA .netError))).comp.error = none ∧
     (step (.dropFiles [imgB])
        (run init (singleRunTrace imgA .netError))).comp.preview =
      some (run init (singleRunTrace imgA .netError)).nextUrl ∧
     (step .flush (step (.dropFiles [imgB])
        (run init (singleRunTrace imgA .netError)))).comp.isAnalyzing =
      true ∧
     (step .flush (step (.dropFiles [imgB])
        (run init (singleRunTrace imgA .netError)))).comp.results = none ∧
     (step .flush (step (.dropFiles [imgB])
        (run init (singleRunTrace imgA .netError)))).comp.error = none ∧
     (step .flush (step (.dropFiles [imgB])
        (run init (singleRunTrace imgA .netError)))).comp.selectedFile =
      some imgB ∧
     (step .flush (step (.dropFiles [imgB])
        (run init (singleRunTrace imgA .netError)))).comp.preview =
      some (run init (singleRunTrace imgA .netError)).nextUrl) :=
  c8_new_selection_analyzing (run init (singleRunTrace imgA .netError))
    imgB [] (by decide)

/-- C9: in every state, `dragenter` and `dragover` set the drag indicator
active, and `dragleave` and drop set it inactive — for a drop regardless of
whether the payload is an accepted image file (the handler clears the flag
before the MIME check, and `processSelectedFile` never touches it). -/
theorem c9_drag_indicator (w : World) (files : List RawFile) :
    (step (.drag .dragenter) w).comp.dragActive = true ∧
    (step (.drag .dragover) w).comp.dragActive = true ∧
    (step (.drag .dragleave) w).comp.dragActive = false ∧
    (step (.dropFiles files) w).comp.dragActive = false := by
  refine ⟨rfl, rfl, rfl, ?_⟩
  cases files with
  | nil => rfl
  | cons f fs =>
    cases h : isImage f <;>
      simp [step, handleDrop, h, processSelectedFile]

/-- C10: when a pending request settles with a failing outcome (network
error or non-2xx status), only the error slot and the in-flight flag change:
the selected file, its preview, the results slot and the drag indicator are
exactly what they were, so the Failed state still shows the preview that
triggered the request. -/
theorem c10_failure_frame (w : World) (rid : Nat) (o : HttpOutcome)
    (hp : w.pending.any (fun r => r.rid == rid) = true)
    (ho : throwsOutcome o = true) :
    (step (.settle rid o) w).comp.selectedFile = w.comp.selectedFile ∧
    (step (.settle rid o) w).comp.preview = w.comp.preview ∧
    (step (.settle rid o) w).comp.results = w.comp.results ∧
    (step (.settle rid o) w).comp.dragActive = w.comp.dragActive ∧
    (step (.settle rid o) w).comp.error = some failMsg ∧
    (step (.settle rid o) w).comp.isAnalyzing = false := by
  cases o with
  | netError => simp [step, doSettle, hp, settleComp]
  | response st p =>
    simp only [throwsOutcome, Bool.not_eq_true'] at ho
    simp [step, doSettle, hp, settleComp, ho]

/-- C10 witness: the theorem applied to the world with `imgA`'s request in
flight, settled with status 500. -/
theorem c10_witness :
    (step (.settle 0 (.response 500 none))
        (run init [.pickerSelect [imgA], .flush])).comp.selectedFile =
      (run init [.pickerSelect [imgA], .flush]).comp.selectedFile ∧
    (step (.settle 0 (.response 500 none))
        (run init [.pickerSelect [imgA], .flush])).comp.preview =
      (run init [.pickerSelect [imgA], .flush]).comp.preview ∧
    (step (.settle 0 (.response 500 none))
        (run init [.pickerSelect [imgA], .flush])).comp.results =
      (run init [.pickerSelect [imgA], .flush]).comp.results ∧
    (step (.settle 0 (.response 500 none))
        (run init [.pickerSelect [imgA], .flush])).comp.dragActive =
      (run init [.pickerSelect [imgA], .flush]).comp.dragActive ∧
    (step (.settle 0 (.response 500 none))
        (run init [.pickerSelect [imgA], .flush])).comp.error =
      some failMsg ∧
    (step (.settle 0 (.response 500 none))
        (run init [.pickerSelect [imgA], .flush])).comp.isAnalyzing =
      false :=
  c10_failure_frame (run init [.pickerSelect [imgA], .flush]) 0
    (.response 500 none) (by decide) (by decide)


theorem pending_eq_singleton {l : List Request} {p : Request → Bool}
    (h1 : l.length ≤ 1) (h2 : l.any p = true) : ∃ r, l = [r] ∧ p r = true := by
  cases l with
  | nil => simp at h2
  | cons r rest =>
    cases rest with
    | nil =>
      simp only [List.any_cons, List.any_nil, Bool.or_false] at h2
      exact ⟨r, rfl, h2⟩
    | cons r2 rest2 => simp at h1

theorem seqInv_congr {w1 w2 : World}
    (hp : w2.pending = w1.pending)
    (ha : w2.comp.isAnalyzing = w1.comp.isAnalyzing)
    (hr : w2.comp.results = w1.comp.results)
    (he : w2.comp.error = w1.comp.error)
    (hf : w2.effectPending = w1.effectPending)
    (hv : w2.comp.preview = w1.comp.preview)
    (h : SeqInv w1) : SeqInv w2 := by
  simp only [SeqInv, hp, ha, hr, he, hf, hv]
  exact h

theorem settleComp_preview (o : HttpOutcome) (s : CompState) :
    (settleComp o s).preview = s.preview := by
  cases o with
  | netError => rfl
  | response st p =>
    simp only [settleComp]
    split
    · split <;> rfl
    · rfl

theorem settleComp_selectedFile (o : HttpOutcome) (s : CompState) :
    (settleComp o s).selectedFile = s.selectedFile := by
  cases o with
  | netError => rfl
  | response st p =>
    simp only [settleComp]
    split
    · split <;> rfl
    · rfl

theorem settleComp_isAnalyzing (o : HttpOutcome) (s : CompState) :
    (settleComp o s).isAnalyzing = false := by
  cases o with
  | netError => rfl
  | response st p =>
    simp only [settleComp]
    split
    · split <;> rfl
    · rfl

theorem settleComp_keep (o : HttpOutcome) (s : CompState)
    (hr : s.results = none) (he : s.error = none) :
    (settleComp o s).results = none ∨ (settleComp o s).error = none := by
  cases o with
  | netError => left; exact hr
  | response st p =>
    simp only [settleComp]
    split
    · split
      · right; exact he
      · left; exact hr
    · left; exact hr

theorem seqInv_processSelectedFile (w : World) (f : RawFile)
    (hInv : SeqInv w) (hPend : w.pending = []) :
    SeqInv (processSelectedFile f w) := by
  obtain ⟨h1, h2, h3, h4, h5⟩ := hInv
  refine ⟨?_, ?_, ?_, ?_, ?_⟩
  · simp [processSelectedFile, hPend]
  · simpa [processSelectedFile, hPend] using h2.trans (by rw [hPend]; rfl)
  · intro _; simp [processSelectedFile]
  · left; simp [processSelectedFile]
  · intro _ _
    exact ⟨by simp [processSelectedFile], by simp [processSelectedFile, hPend]⟩

theorem seqInv_step (w : World) (e : Event) (hInv : SeqInv w)
    (hok : seqOk w e = true) : SeqInv (step e w) := by
  obtain ⟨h1, h2, h3, h4, h5⟩ := hInv
  cases e with
  | pickerSelect fs =>
    simp only [seqOk, okEvent, Bool.and_eq_true, Bool.not_eq_true'] at hok
    obtain ⟨hEff, hPend⟩ := hok
    rw [List.isEmpty_iff] at hPend
    cases fs with
    | nil => exact ⟨h1, h2, h3, h4, h5⟩
    | cons f fs2 =>
      cases hIm : isImage f with
      | false =>
        simpa [step, handleFileChange, hIm] using
          (⟨h1, h2, h3, h4, h5⟩ : SeqInv w)
      | true =>
        simpa [step, handleFileChange, hIm] using
          seqInv_processSelectedFile w f ⟨h1, h2, h3, h4, h5⟩ hPend
  | dropFiles fs =>
    simp only [seqOk, okEvent, Bool.and_eq_true, Bool.not_eq_true'] at hok
    obtain ⟨hEff, hPend⟩ := hok
    rw [List.isEmpty_iff] at hPend
    have hW1 : SeqInv { w with comp := { w.comp with dragActive := false } } :=
      seqInv_congr rfl rfl rfl rfl rfl rfl ⟨h1, h2, h3, h4, h5⟩
    cases fs with
    | nil => simpa [step, handleDrop] using hW1
    | cons f fs2 =>
      cases hIm : isImage f with
      | false => simpa [step, handleDrop, hIm] using hW1
      | true =>
        simpa [step, handleDrop, hIm] using
          seqInv_processSelectedFile _ f hW1 hPend
  | drag t =>
    cases t <;>
      exact seqInv_congr rfl rfl rfl rfl rfl rfl ⟨h1, h2, h3, h4, h5⟩
  | resetClick =>
    refine ⟨?_, ?_, ?_, ?_, ?_⟩
    · simpa [step, resetAnalysis] using h1
    · simpa [step, resetAnalysis] using h2
    · intro _; simp [step, resetAnalysis]
    · left; simp [step, resetAnalysis]
    · intro _ hPv; simp [step, resetAnalysis] at hPv
  | flush =>
    simp only [seqOk, okEvent, Bool.and_eq_true] at hok
    have hEff : w.effectPending = true := hok.1
    cases hPv : w.comp.preview with
    | none =>
      have hstep : step .flush w = { w with effectPending := false } := by
        simp only [step, flushEffect, hEff, if_true, hPv]
      rw [hstep]
      refine ⟨h1, h2, h3, h4, ?_⟩
      intro h; cases h
    | some u =>
      obtain ⟨hRes, hPendNil⟩ := h5 hEff (by simp [hPv])
      have hstep : step .flush w = { w with
          effectPending := false,
          comp := { w.comp with isAnalyzing := true, error := none },
          pending := w.pending ++
            [{ rid := w.nextReq, rfile := w.comp.selectedFile,
               rpreview := u }],
          issued := w.issued ++
            [{ rid := w.nextReq, rfile := w.comp.selectedFile,
               rpreview := u }],
          nextReq := w.nextReq + 1 } := by
        simp only [step, flushEffect, hEff, if_true, hPv]
      rw [hstep, hPendNil]
      refine ⟨by simp, by simp, ?_, ?_, ?_⟩
      · intro _; exact ⟨hRes, rfl⟩
      · left; exact hRes
      · intro h; cases h
  | settle rid o =>
    simp only [seqOk, okEvent, Bool.and_eq_true] at hok
    have hAny := hok.1
    obtain ⟨r, hLr, hPr⟩ := pending_eq_singleton h1 hAny
    have hA : w.comp.isAnalyzing = true := by rw [h2, hLr]; rfl
    obtain ⟨hRes, hErr⟩ := h3 hA
    have hNotNil : ¬(w.pending = []) := by rw [hLr]; simp
    have hFilter : w.pending.filter (fun q => q.rid != rid) = [] := by
      rw [hLr]
      simp [List.filter_cons, bne, hPr]
    have hstep : step (.settle rid o) w =
        { w with pending := [], comp := settleComp o w.comp } := by
      simp only [step, doSettle, hAny, if_true]
      rw [hFilter]
    rw [hstep]
    refine ⟨by simp, ?_, ?_, ?_, ?_⟩
    · simp [settleComp_isAnalyzing]
    · intro h
      have h9 : (settleComp o w.comp).isAnalyzing = true := h
      rw [settleComp_isAnalyzing] at h9
      cases h9
    · exact settleComp_keep o w.comp hRes hErr
    · intro hE hP
      have hP9 : (settleComp o w.comp).preview.isSome = true := hP
      rw [settleComp_preview] at hP9
      have hE9 : w.effectPending = true := hE
      exact absurd (h5 hE9 hP9).2 hNotNil

theorem seqInv_reach (w : World) (h : SeqReach w) : SeqInv w := by
  induction h with
  | init => refine ⟨?_, ?_, ?_, ?_, ?_⟩ <;> simp [init]
  | step w1 e hw hok ih => exact seqInv_step w1 e ih hok



theorem c3_amended_theorem (w : World) (h : SeqReach w) :
    activeCount w.comp ≤ 1 := by
  obtain ⟨h1, h2, h3, h4, h5⟩ := seqInv_reach w h
  unfold activeCount
  cases hA : w.comp.isAnalyzing with
  | true =>
    obtain ⟨hr, he⟩ := h3 hA
    simp [hr, he]
  | false =>
    rcases h4 with h4 | h4 <;> simp [h4] <;> split <;> simp

theorem c3_amended_witness :
    activeCount (run init seqHealthyTrace).comp ≤ 1 :=
  c3_amended_theorem (run init seqHealthyTrace)
    (seqReach_of_seqValidRun seqHealthyTrace init SeqReach.init (by decide))

theorem countIssued_eq_zero (w : World) (n : Nat)
    (h : ∀ r ∈ w.issued, r.rpreview < n) : countIssued n w = 0 := by
  unfold countIssued
  rw [List.countP_eq_zero]
  intro r hr
  simp only [beq_iff_eq]
  exact Nat.ne_of_lt (h r hr)



theorem inv5_congr {w1 w2 : World}
    (hi : w2.issued = w1.issued) (hn : w2.nextUrl = w1.nextUrl)
    (hs : w2.selections = w1.selections)
    (hv : w2.comp.preview = w1.comp.preview)
    (hf : w2.effectPending = w1.effectPending)
    (h : Inv5 w1) : Inv5 w2 := by
  simp only [Inv5, countIssued, hi, hn, hs, hv, hf]
  exact h

theorem inv5_processSelectedFile (w : World) (f : RawFile)
    (hInv : Inv5 w) (hEff : w.effectPending = false) :
    Inv5 (processSelectedFile f w) := by
  obtain ⟨a, b, c, d, e⟩ := hInv
  have hcount : ∀ u, countIssued u (processSelectedFile f w) =
      countIssued u w := fun _ => rfl
  refine ⟨?_, ?_, ?_, ?_, ?_⟩
  · intro r hr
    have hr9 : r ∈ w.issued := hr
    exact Nat.lt_succ_of_lt (a r hr9)
  · intro u hu
    have hu9 : u ∈ w.selections ++ [w.nextUrl] := hu
    rw [List.mem_append, List.mem_singleton] at hu9
    rcases hu9 with h9 | h9
    · exact Nat.lt_succ_of_lt (b u h9)
    · exact h9 ▸ Nat.lt_succ_self w.nextUrl
  · intro u hu
    have hu9 : some w.nextUrl = some u := hu
    injection hu9 with h9
    exact h9 ▸ Nat.lt_succ_self w.nextUrl
  · intro _ u hu
    have hu9 : some w.nextUrl = some u := hu
    injection hu9 with h9
    rw [hcount u, ← h9]
    exact countIssued_eq_zero w w.nextUrl a
  · intro u hu
    have hu9 : u ∈ w.selections ++ [w.nextUrl] := hu
    rw [List.mem_append, List.mem_singleton] at hu9
    rcases hu9 with h9 | h9
    · rcases e u h9 with hc | ⟨hE, _, _⟩
      · left; rw [hcount u]; exact hc
      · rw [hEff] at hE; cases hE
    · right
      refine ⟨rfl, ?_, ?_⟩
      · show some w.nextUrl = some u
        rw [h9]
      · rw [hcount u, h9]
        exact countIssued_eq_zero w w.nextUrl a

theorem inv5_step (w : World) (e : Event) (hInv : Inv5 w)
    (hok : okEvent w e = true) : Inv5 (step e w) := by
  cases e with
  | pickerSelect fs =>
    simp only [okEvent, Bool.not_eq_true'] at hok
    cases fs with
    | nil => exact hInv
    | cons f fs2 =>
      cases hIm : isImage f with
      | false => simpa [step, handleFileChange, hIm] using hInv
      | true =>
        simpa [step, handleFileChange, hIm] using
          inv5_processSelectedFile w f hInv hok
  | dropFiles fs =>
    simp only [okEvent, Bool.not_eq_true'] at hok
    have hW1 : Inv5 { w with comp := { w.comp with dragActive := false } } :=
      inv5_congr rfl rfl rfl rfl rfl hInv
    cases fs with
    | nil => simpa [step, handleDrop] using hW1
    | cons f fs2 =>
      cases hIm : isImage f with
      | false => simpa [step, handleDrop, hIm] using hW1
      | true =>
        simpa [step, handleDrop, hIm] using
          inv5_processSelectedFile _ f hW1 hok
  | drag t =>
    cases t <;> exact inv5_congr rfl rfl rfl rfl rfl hInv
  | resetClick =>
    simp only [okEvent, Bool.not_eq_true'] at hok
    obtain ⟨a, b, c, d, e⟩ := hInv
    refine ⟨?_, ?_, ?_, ?_, ?_⟩
    · intro r hr; exact a r hr
    · intro u hu; exact b u hu
    · intro u hu
      have hu9 : (none : Option Nat) = some u := hu
      cases hu9
    · intro _ u hu
      have hu9 : (none : Option Nat) = some u := hu
      cases hu9
    · intro u hu
      rcases e u hu with hc | ⟨hE, _, _⟩
      · left; exact hc
      · rw [hok] at hE; cases hE
  | flush =>
    simp only [okEvent] at hok
    obtain ⟨a, b, c, d, e⟩ := hInv
    cases hPv : w.comp.preview with
    | none =>
      have hstep : step .flush w = { w with effectPending := false } := by
        simp only [step, flushEffect, hok, if_true, hPv]
      rw [hstep]
      refine ⟨a, b, ?_, ?_, ?_⟩
      · intro u hu; exact c u hu
      · intro hE; cases hE
      · intro u hu
        rcases e u hu with hc | ⟨_, hPvu, _⟩
        · left; exact hc
        · rw [hPv] at hPvu; cases hPvu
    | some u0 =>
      have hc0 : countIssued u0 w = 0 := d hok u0 hPv
      have hu0lt : u0 < w.nextUrl := c u0 hPv
      have hstep : step .flush w = { w with
          effectPending := false,
          comp := { w.comp with isAnalyzing := true, error := none },
          pending := w.pending ++
            [{ rid := w.nextReq, rfile := w.comp.selectedFile,
               rpreview := u0 }],
          issued := w.issued ++
            [{ rid := w.nextReq, rfile := w.comp.selectedFile,
               rpreview := u0 }],
          nextReq := w.nextReq + 1 } := by
        simp only [step, flushEffect, hok, if_true, hPv]
      rw [hstep]
      refine ⟨?_, ?_, ?_, ?_, ?_⟩
      · intro r hr
        have hr9 : r ∈ w.issued ++
            [{ rid := w.nextReq, rfile := w.comp.selectedFile,
               rpreview := u0 }] := hr
        rw [List.mem_append, List.mem_singleton] at hr9
        rcases hr9 with h9 | h9
        · exact a r h9
        · subst h9; exact hu0lt
      · intro u hu; exact b u hu
      · intro u hu; exact c u hu
      · intro hE; cases hE
      · intro u hu
        have hu9 : u ∈ w.selections := hu
        have hsplit : ∀ l : List Request, ∀ r0 : Request,
            (l ++ [r0]).countP (fun q => q.rpreview == u) =
              l.countP (fun q => q.rpreview == u) +
                (if r0.rpreview = u then 1 else 0) := by
          intro l r0
          rw [List.countP_append]
          simp [List.countP_cons, List.countP_nil]
        by_cases hEq : u = u0
        · subst hEq
          left
          show (w.issued ++
            [({ rid := w.nextReq, rfile := w.comp.selectedFile,
                rpreview := u } : Request)]).countP
              (fun q : Request => q.rpreview == u) = 1
          rw [hsplit]
          have hc9 : w.issued.countP (fun q => q.rpreview == u) = 0 := hc0
          rw [hc9]
          simp
        · rcases e u hu9 with hc | ⟨_, hPvu, _⟩
          · left
            show (w.issued ++
              [({ rid := w.nextReq, rfile := w.comp.selectedFile,
                  rpreview := u0 } : Request)]).countP
                (fun q : Request => q.rpreview == u) = 1
            rw [hsplit]
            have hc9 : w.issued.countP (fun q => q.rpreview == u) = 1 := hc
            rw [hc9, if_neg (fun h9 => hEq h9.symm)]
          · rw [hPv] at hPvu
            injection hPvu with h9
            exact absurd h9.symm hEq
  | settle rid o =>
    simp only [okEvent] at hok
    obtain ⟨a, b, c, d, e⟩ := hInv
    have hstep : step (.settle rid o) w =
        { w with pending := w.pending.filter (fun q => q.rid != rid),
                 comp := settleComp o w.comp } := by
      simp only [step, doSettle, hok, if_true]
    rw [hstep]
    refine ⟨?_, ?_, ?_, ?_, ?_⟩
    · intro r hr; exact a r hr
    · intro u hu; exact b u hu
    · intro u hu
      have hu9 : (settleComp o w.comp).preview = some u := hu
      rw [settleComp_preview] at hu9
      exact c u hu9
    · intro hE u hu
      have hu9 : (settleComp o w.comp).preview = some u := hu
      rw [settleComp_preview] at hu9
      exact d hE u hu9
    · intro u hu
      rcases e u hu with hc | ⟨hE, hPvu, hc⟩
      · left; exact hc
      · right
        refine ⟨hE, ?_, hc⟩
        show (settleComp o w.comp).preview = some u
        rw [settleComp_preview]
        exact hPvu

theorem inv5_reach (w : World) (h : Reach w) : Inv5 w := by
  induction h with
  | init =>
    refine ⟨?_, ?_, ?_, ?_, ?_⟩ <;> simp [init, Inv5, countIssued]
  | step w1 e hw hok ih => exact inv5_step w1 e ih hok

theorem c5_exactly_once (w : World) (h : Reach w) :
    ∀ u ∈ w.selections,
      countIssued u w = 1 ∨
      (w.effectPending = true ∧ w.comp.preview = some u ∧
        countIssued u w = 0) :=
  fun u hu => (inv5_reach w h).2.2.2.2 u hu

theorem c5_witness :
    countIssued 0 (run init [.pickerSelect [imgA], .flush]) = 1 ∨
    ((run init [.pickerSelect [imgA], .flush]).effectPending = true ∧
     (run init [.pickerSelect [imgA], .flush]).comp.preview = some 0 ∧
     countIssued 0 (run init [.pickerSelect [imgA], .flush]) = 0) :=
  c5_exactly_once (run init [.pickerSelect [imgA], .flush])
    (reach_of_validRun [.pickerSelect [imgA], .flush] init Reach.init
      (by decide)) 0 (by decide)

end PotatoDoc
